import Mathlib

/-!
Shallow embedding of the directory-engine-api core services
(`internal/services/token.go`, `internal/services/nango.go`,
`internal/services/cache.go`, `internal/services/scheduler.go`) and proofs of
the behavioural properties claimed for them.

Modelling conventions:
* Go `time.Int` / `time.Duration` are int64 nanosecond counts; they are
  modelled as unbounded `Int` (the values involved stay far below 2^63, so no
  overflow behaviour is observable in the claims).
* The relational store is a `DB` structure holding the `companies` and
  `token_refreshes` tables as lists ordered by primary key; gorm `First` on a
  keyed query is `List.find?`, gorm `Save` replaces the row with the matching
  primary key and bumps `updated_at`.
* The external Nango broker is a function `Broker`; the refresh operations also
  return the list of company ids for which the broker was actually invoked, so
  "performs no broker call" is directly statable.
* Fallible Go functions returning `error` become `Except String _`.
-/

set_option autoImplicit false

namespace DirectoryEngine

/-- Go `time.Hour` in nanoseconds.  Instants and durations (Go `time.Int` /
    `time.Duration`, int64 nanosecond counts) are modelled as plain `Int`. -/
def hourNs : Int := 3600 * 1000000000

/-- One 24-hour day in nanoseconds (`AddDate(0,0,-n)` modelled as n such days). -/
def dayNs : Int := 24 * hourNs

/-- Row of the `companies` table (`internal/models`, `Company`). -/
structure Company where
  id : Nat
  companyID : String
  companyName : String
  accessToken : String
  refreshToken : String
  tokenExpiry : Int
  isActive : Bool
  updatedAt : Int
  deriving Repr, DecidableEq

/-- Row of the `token_refreshes` table (`internal/models`, `TokenRefresh`). -/
structure TokenRefresh where
  id : Nat
  companyID : Nat
  lastRefresh : Int
  nextRefresh : Int
  refreshCount : Nat
  status : String
  errorMessage : String
  updatedAt : Int
  deriving Repr, DecidableEq

/-- The relational store: the two tables the token lifecycle touches. -/
structure DB where
  companies : List Company
  tokenRefreshes : List TokenRefresh
  deriving Repr, DecidableEq

/-- Successful response of the Nango refresh endpoint (`NangoRefreshResponse`). -/
structure RefreshResp where
  accessToken : String
  refreshToken : String
  expiresAt : Int
  deriving Repr, DecidableEq

/-- The external token broker: company id to refresh outcome. -/
abbrev Broker := String → Except String RefreshResp

/-- gorm `Where("company_id = ?", cid).First(&Company)`. -/
def findCompanyByCompanyID (db : DB) (cid : String) : Option Company :=
  db.companies.find? (fun c => c.companyID == cid)

/-- gorm `Where("company_id = ? AND is_active = ?", cid, true).First(&Company)`. -/
def findActiveCompanyByCompanyID (db : DB) (cid : String) : Option Company :=
  db.companies.find? (fun c => c.companyID == cid && c.isActive)

/-- gorm `Where("id = ?", i).First(&Company)`. -/
def findCompanyByID (db : DB) (i : Nat) : Option Company :=
  db.companies.find? (fun c => c.id == i)

/-- gorm `Where("company_id = ?", i).First(&TokenRefresh)`. -/
def findTokenRefreshByCompanyID (db : DB) (i : Nat) : Option TokenRefresh :=
  db.tokenRefreshes.find? (fun tr => tr.companyID == i)

/-- Lookup of a refresh record by its own primary key (used to state what a
    refresh pass left in the table). -/
def findTokenRefreshByRecordID (db : DB) (i : Nat) : Option TokenRefresh :=
  db.tokenRefreshes.find? (fun tr => tr.id == i)

/-- gorm `db.Save(&company)`: replace the row with this primary key and bump
    `updated_at`. -/
def saveCompany (now : Int) (db : DB) (c : Company) : DB :=
  { db with companies :=
      db.companies.map (fun x => if x.id == c.id then { c with updatedAt := now } else x) }

/-- gorm `db.Save(&tokenRefresh)`: replace the row with this primary key and
    bump `updated_at`. -/
def saveTokenRefresh (now : Int) (db : DB) (tr : TokenRefresh) : DB :=
  { db with tokenRefreshes :=
      db.tokenRefreshes.map (fun x => if x.id == tr.id then { tr with updatedAt := now } else x) }

@[simp] theorem saveCompany_tokenRefreshes (now : Int) (db : DB) (c : Company) :
    (saveCompany now db c).tokenRefreshes = db.tokenRefreshes := rfl

@[simp] theorem saveTokenRefresh_companies (now : Int) (db : DB) (tr : TokenRefresh) :
    (saveTokenRefresh now db tr).companies = db.companies := rfl

@[simp] theorem findTokenRefreshByCompanyID_saveCompany
    (now : Int) (db : DB) (c : Company) (i : Nat) :
    findTokenRefreshByCompanyID (saveCompany now db c) i
      = findTokenRefreshByCompanyID db i := rfl

@[simp] theorem findCompanyByID_saveTokenRefresh
    (now : Int) (db : DB) (tr : TokenRefresh) (i : Nat) :
    findCompanyByID (saveTokenRefresh now db tr) i = findCompanyByID db i := rfl

/-- Replacing every element satisfying `q` by a `q`-satisfying value `v` makes
    `find? q` return `v`, provided some element satisfied `q`. -/
theorem find?_map_replace {α : Type} (q : α → Bool) (v : α) (l : List α)
    (hv : q v = true) (h : ∃ x ∈ l, q x = true) :
    (l.map (fun x => if q x then v else x)).find? q = some v := by
  induction l with
  | nil => simp at h
  | cons y ys ih =>
    simp only [List.map_cons]
    by_cases hy : q y = true
    · rw [if_pos hy, List.find?_cons_of_pos _ hv]
    · rw [if_neg hy, List.find?_cons_of_neg _ (by simp [hy])]
      apply ih
      obtain ⟨x, hx, hqx⟩ := h
      rcases List.mem_cons.mp hx with rfl | hmem
      · exact absurd hqx hy
      · exact ⟨x, hmem, hqx⟩

/-- After `saveTokenRefresh`, looking the record up by its primary key returns
    the saved row (with `updated_at` bumped), provided the key was present. -/
theorem findTokenRefreshByRecordID_save (now : Int) (db : DB) (tr : TokenRefresh)
    (h : ∃ x ∈ db.tokenRefreshes, x.id = tr.id) :
    findTokenRefreshByRecordID (saveTokenRefresh now db tr) tr.id
      = some { tr with updatedAt := now } := by
  unfold findTokenRefreshByRecordID saveTokenRefresh
  dsimp only
  apply find?_map_replace
  · simp
  · obtain ⟨x, hx, hid⟩ := h
    exact ⟨x, hx, by simp [hid]⟩

/-- After `saveCompany`, looking the company up by its primary key returns the
    saved row (with `updated_at` bumped), provided the key was present. -/
theorem findCompanyByID_saveCompany (now : Int) (db : DB) (c : Company)
    (h : ∃ x ∈ db.companies, x.id = c.id) :
    findCompanyByID (saveCompany now db c) c.id = some { c with updatedAt := now } := by
  unfold findCompanyByID saveCompany
  dsimp only
  apply find?_map_replace
  · simp
  · obtain ⟨x, hx, hid⟩ := h
    exact ⟨x, hx, by simp [hid]⟩

namespace NangoService

/-- `nango.go` `RefreshToken`: load the company, call the broker, store the new
    credentials, and update the refresh record (last refresh now, next refresh
    24h before the new expiry, count+1, status `active`, error cleared).
    The second component lists the company ids the broker was invoked for. -/
def RefreshToken (broker : Broker) (now : Int) (db : DB) (companyID : String) :
    Except String DB × List String :=
  match findCompanyByCompanyID db companyID with
  | none => (.error "company not found", [])
  | some company =>
    match broker companyID with
    | .error e => (.error ("failed to refresh token: " ++ e), [companyID])
    | .ok refreshResp =>
      let company' : Company := { company with
        accessToken := refreshResp.accessToken
        refreshToken := refreshResp.refreshToken
        tokenExpiry := refreshResp.expiresAt }
      let db1 := saveCompany now db company'
      match findTokenRefreshByCompanyID db1 company.id with
      | some tokenRefresh =>
        let tokenRefresh' : TokenRefresh := { tokenRefresh with
          lastRefresh := now
          nextRefresh := refreshResp.expiresAt - 24 * hourNs
          refreshCount := tokenRefresh.refreshCount + 1
          status := "active"
          errorMessage := "" }
        (.ok (saveTokenRefresh now db1 tokenRefresh'), [companyID])
      | none => (.ok db1, [companyID])

end NangoService

namespace TokenService

/-- `token.go` `refreshSingleToken`: delegate to the broker via
    `nango.RefreshToken`, then update the (stale, preloaded) refresh record and
    save it, computing the next refresh from the freshly re-read company.
    `companyCompanyID` is the preloaded `tokenRefresh.Company.CompanyID`. -/
def refreshSingleToken (broker : Broker) (now : Int) (db : DB)
    (tokenRefresh : TokenRefresh) (companyCompanyID : String) :
    Except String DB × List String :=
  match NangoService.RefreshToken broker now db companyCompanyID with
  | (.error e, calls) => (.error ("nango refresh failed: " ++ e), calls)
  | (.ok db1, calls) =>
    let tr1 : TokenRefresh := { tokenRefresh with
      lastRefresh := now
      refreshCount := tokenRefresh.refreshCount + 1
      status := "active"
      errorMessage := "" }
    match findCompanyByID db1 tokenRefresh.companyID with
    | none => (.error "failed to get updated company", calls)
    | some updatedCompany =>
      let tr2 : TokenRefresh := { tr1 with
        nextRefresh := updatedCompany.tokenExpiry - 24 * hourNs }
      (.ok (saveTokenRefresh now db1 tr2), calls)

/-- `token.go` `RefreshExpiredTokens`: select the due active refresh records
    (with their companies preloaded from the same query), refresh each one in
    turn, and on a per-record failure store status `failed` with the error
    text; the batch itself always returns success. -/
def RefreshExpiredTokens (broker : Broker) (now : Int) (db : DB) :
    Except String DB × List String :=
  let due := db.tokenRefreshes.filter
    (fun tr => decide (tr.nextRefresh ≤ now) && tr.status == "active")
  let dueWithCompany := due.map (fun tr =>
    (tr, ((findCompanyByID db tr.companyID).map (fun c => c.companyID)).getD ""))
  let step := fun (acc : DB × List String) (p : TokenRefresh × String) =>
    match refreshSingleToken broker now acc.1 p.1 p.2 with
    | (.ok db', calls) => (db', acc.2 ++ calls)
    | (.error e, calls) =>
      (saveTokenRefresh now acc.1 { p.1 with status := "failed", errorMessage := e },
       acc.2 ++ calls)
  let out := dueWithCompany.foldl step (db, [])
  (.ok out.1, out.2)

/-- `token.go` `RefreshTokenForCompany`: reject when more than 24 hours remain
    before the credential expires, otherwise delegate to the broker. -/
def RefreshTokenForCompany (broker : Broker) (now : Int) (db : DB) (companyID : String) :
    Except String DB × List String :=
  match findCompanyByCompanyID db companyID with
  | none => (.error "company not found", [])
  | some company =>
    if 24 * hourNs < company.tokenExpiry - now then
      (.error ("token for company " ++ companyID ++ " does not need refreshing yet"), [])
    else
      NangoService.RefreshToken broker now db companyID

/-- `token.go` `ValidateToken`: false when the credential is already expired or
    expires within the next hour. -/
def ValidateToken (now : Int) (db : DB) (companyID : String) : Except String Bool :=
  match findActiveCompanyByCompanyID db companyID with
  | none => .error "company not found"
  | some company =>
    if company.tokenExpiry < now then .ok false
    else if company.tokenExpiry - now < hourNs then .ok false
    else .ok true

/-- `token.go` `CleanupExpiredTokens`: delete refresh records older than the
    hardcoded 30 days in status `failed` or `expired`.  The Go function returns
    only a nil error; the deleted-row count (`result.RowsAffected`) is computed
    by the store and logged, and is surfaced here as the second component. -/
def CleanupExpiredTokens (now : Int) (db : DB) : DB × Nat :=
  let cutoffDate := now - 30 * dayNs
  let doomed := fun (tr : TokenRefresh) =>
    decide (tr.updatedAt < cutoffDate) && (tr.status == "failed" || tr.status == "expired")
  ({ db with tokenRefreshes := db.tokenRefreshes.filter (fun tr => ! doomed tr) },
   (db.tokenRefreshes.filter doomed).length)

/-- Modelled from the spec: `purgeOldRecords(retentionDays)` — the spec's
    parameterized purge ("deletes refresh records in a terminal status older
    than the retention window; returns count removed").  The source function
    `CleanupExpiredTokens` hardcodes the 30-day window instead of taking it as
    a parameter; this definition exists to compare the two. -/
def purgeOldRecords (retentionDays : Nat) (now : Int) (db : DB) : DB × Nat :=
  let cutoffDate := now - (retentionDays : Int) * dayNs
  let doomed := fun (tr : TokenRefresh) =>
    decide (tr.updatedAt < cutoffDate) && (tr.status == "failed" || tr.status == "expired")
  ({ db with tokenRefreshes := db.tokenRefreshes.filter (fun tr => ! doomed tr) },
   (db.tokenRefreshes.filter doomed).length)

end TokenService

/-! ## Claims about the token lifecycle -/

/-- A concrete active company whose credential expires exactly one hour from
    time 0, used to exhibit the boundary behaviour of `ValidateToken`. -/
def boundaryCompany : Company :=
  { id := 1, companyID := "c1", companyName := "Acme", accessToken := "at",
    refreshToken := "rt", tokenExpiry := hourNs, isActive := true, updatedAt := 0 }

/-- The store holding only `boundaryCompany`. -/
def boundaryDB : DB := { companies := [boundaryCompany], tokenRefreshes := [] }

/-- C2 counterexample: with exactly one hour (not more) remaining before the
    credential expiry, `ValidateToken` returns `true`, so it is not the case
    that it returns true only when more than one hour remains. -/
theorem validateToken_true_at_exactly_one_hour :
    TokenService.ValidateToken 0 boundaryDB "c1" = .ok true
      ∧ ¬ hourNs < boundaryCompany.tokenExpiry - 0 := by
  constructor
  · rfl
  · decide

/-- C2 (amended): for an active tenant in the store, `ValidateToken` returns
    false exactly when the credential is already expired or strictly less than
    one hour from expiry, i.e. it returns true iff at least one hour remains
    (the boundary "exactly one hour left" yields true). -/
theorem validateToken_spec (now : Int) (db : DB) (companyID : String) (company : Company)
    (h : findActiveCompanyByCompanyID db companyID = some company) :
    TokenService.ValidateToken now db companyID
      = .ok (decide (now + hourNs ≤ company.tokenExpiry)) := by
  unfold TokenService.ValidateToken
  rw [h]
  dsimp only
  have hh : hourNs = 3600 * 1000000000 := rfl
  by_cases h1 : company.tokenExpiry < now
  · rw [if_pos h1]
    have : ¬ now + hourNs ≤ company.tokenExpiry := by omega
    simp [this]
  · rw [if_neg h1]
    by_cases h2 : company.tokenExpiry - now < hourNs
    · rw [if_pos h2]
      have : ¬ now + hourNs ≤ company.tokenExpiry := by omega
      simp [this]
    · rw [if_neg h2]
      have : now + hourNs ≤ company.tokenExpiry := by omega
      simp [this]

/-- Witness for `validateToken_spec` at a concrete store. -/
theorem validateToken_spec_witness :
    TokenService.ValidateToken 0 boundaryDB "c1"
      = .ok (decide ((0 : Int) + hourNs ≤ boundaryCompany.tokenExpiry)) :=
  validateToken_spec 0 boundaryDB "c1" boundaryCompany rfl

/-- C3: when the credential still has more than the 24-hour lead window
    remaining, `RefreshTokenForCompany` rejects with the not-due error and the
    broker-call log is empty: the external broker is never invoked. -/
theorem refreshTokenForCompany_notDue (broker : Broker) (now : Int) (db : DB)
    (companyID : String) (company : Company)
    (hfind : findCompanyByCompanyID db companyID = some company)
    (hnotdue : 24 * hourNs < company.tokenExpiry - now) :
    TokenService.RefreshTokenForCompany broker now db companyID
      = (.error ("token for company " ++ companyID ++ " does not need refreshing yet"), []) := by
  unfold TokenService.RefreshTokenForCompany
  rw [hfind]
  dsimp only
  rw [if_pos hnotdue]

/-- Witness for `refreshTokenForCompany_notDue`: a company expiring 100 days
    out is rejected without any broker call. -/
theorem refreshTokenForCompany_notDue_witness :
    TokenService.RefreshTokenForCompany (fun _ => .error "unreachable") 0
        { companies := [{ id := 1, companyID := "c1", companyName := "Acme",
                          accessToken := "at", refreshToken := "rt",
                          tokenExpiry := 100 * dayNs, isActive := true, updatedAt := 0 }],
          tokenRefreshes := [] } "c1"
      = (.error ("token for company " ++ "c1" ++ " does not need refreshing yet"), []) :=
  refreshTokenForCompany_notDue (fun _ => .error "unreachable") 0 _ "c1" _ rfl (by decide)

/-- C4: a successful refresh of a tenant's credential yielding new expiry `E`
    leaves the refresh record with next refresh `E` minus the 24-hour lead
    window, status `active`, refresh count incremented by exactly one, and the
    error text cleared. -/
theorem refreshSingleToken_success (broker : Broker) (now : Int) (db : DB)
    (tokenRefresh : TokenRefresh) (cid : String) (company : Company) (resp : RefreshResp)
    (hfindC : findCompanyByCompanyID db cid = some company)
    (hcid : tokenRefresh.companyID = company.id)
    (hfindT : findTokenRefreshByCompanyID db company.id = some tokenRefresh)
    (hbroker : broker cid = .ok resp) :
    ∃ db', TokenService.refreshSingleToken broker now db tokenRefresh cid
        = (.ok db', [cid])
      ∧ findTokenRefreshByRecordID db' tokenRefresh.id
          = some { tokenRefresh with
                     lastRefresh := now
                     nextRefresh := resp.expiresAt - 24 * hourNs
                     refreshCount := tokenRefresh.refreshCount + 1
                     status := "active"
                     errorMessage := ""
                     updatedAt := now } := by
  have hmemC : company ∈ db.companies := List.mem_of_find?_eq_some hfindC
  have hmemT : tokenRefresh ∈ db.tokenRefreshes := List.mem_of_find?_eq_some hfindT
  unfold TokenService.refreshSingleToken NangoService.RefreshToken
  rw [hfindC]
  dsimp only
  rw [hbroker]
  dsimp only
  rw [findTokenRefreshByCompanyID_saveCompany, hfindT]
  dsimp only
  rw [findCompanyByID_saveTokenRefresh]
  have hupdC :
      findCompanyByID
          (saveCompany now db
            { company with
                accessToken := resp.accessToken
                refreshToken := resp.refreshToken
                tokenExpiry := resp.expiresAt }) tokenRefresh.companyID
        = some { company with
                   accessToken := resp.accessToken
                   refreshToken := resp.refreshToken
                   tokenExpiry := resp.expiresAt
                   updatedAt := now } := by
    rw [hcid]
    exact findCompanyByID_saveCompany now db _ ⟨company, hmemC, rfl⟩
  rw [hupdC]
  dsimp only
  refine ⟨_, rfl, ?_⟩
  have hmem2 :
      ∃ x ∈ (saveTokenRefresh now (saveCompany now db
              { company with
                  accessToken := resp.accessToken
                  refreshToken := resp.refreshToken
                  tokenExpiry := resp.expiresAt })
            { tokenRefresh with
                lastRefresh := now
                nextRefresh := resp.expiresAt - 24 * hourNs
                refreshCount := tokenRefresh.refreshCount + 1
                status := "active"
                errorMessage := "" }).tokenRefreshes,
        x.id = tokenRefresh.id := by
    refine ⟨if tokenRefresh.id == tokenRefresh.id then
              { tokenRefresh with
                  lastRefresh := now
                  nextRefresh := resp.expiresAt - 24 * hourNs
                  refreshCount := tokenRefresh.refreshCount + 1
                  status := "active"
                  errorMessage := ""
                  updatedAt := now } else tokenRefresh, ?_, ?_⟩
    · exact List.mem_map_of_mem _ hmemT
    · simp
  exact findTokenRefreshByRecordID_save now _ _ hmem2

/-- Concrete company for the C4 witness: authorized, expiring two hours out. -/
def w4Company : Company :=
  { id := 1, companyID := "T1", companyName := "T1 Inc", accessToken := "at",
    refreshToken := "rt", tokenExpiry := 2 * hourNs, isActive := true, updatedAt := 0 }

/-- Concrete refresh record for the C4 witness. -/
def w4Refresh : TokenRefresh :=
  { id := 5, companyID := 1, lastRefresh := 0, nextRefresh := 0, refreshCount := 0,
    status := "active", errorMessage := "", updatedAt := 0 }

/-- Store holding the C4 witness rows. -/
def w4DB : DB := { companies := [w4Company], tokenRefreshes := [w4Refresh] }

/-- Broker for the C4 witness: always succeeds with a credential expiring one
    hour out. -/
def w4Broker : Broker := fun _ => .ok { accessToken := "newat", refreshToken := "newrt", expiresAt := hourNs }

/-- Witness for `refreshSingleToken_success` at the spec's scenario (new expiry
    3600s out, next refresh 24h before it, count 1). -/
theorem refreshSingleToken_success_witness :
    ∃ db', TokenService.refreshSingleToken w4Broker 0 w4DB w4Refresh "T1" = (.ok db', ["T1"])
      ∧ findTokenRefreshByRecordID db' w4Refresh.id
          = some { w4Refresh with
                     lastRefresh := 0
                     nextRefresh := hourNs - 24 * hourNs
                     refreshCount := w4Refresh.refreshCount + 1
                     status := "active"
                     errorMessage := ""
                     updatedAt := 0 } :=
  refreshSingleToken_success w4Broker 0 w4DB w4Refresh "T1" w4Company
    { accessToken := "newat", refreshToken := "newrt", expiresAt := hourNs } rfl rfl rfl rfl

/-- A string starting with the per-record refresh failure prefix is nonempty. -/
theorem nango_failure_message_ne_empty (t : String) : "nango refresh failed: " ++ t ≠ "" := by
  intro h
  have hl : ("nango refresh failed: " ++ t).length = 0 := by rw [h]; rfl
  rw [String.length_append] at hl
  have h22 : ("nango refresh failed: " : String).length = 22 := rfl
  omega

/-- C1: a `RefreshExpiredTokens` batch over one tenant whose broker refresh
    fails and one whose refresh succeeds (in either order) completes without
    error; the succeeding tenant's record ends `active` with its count
    incremented, and the failing tenant's record ends `failed` with a nonempty
    error message — the failure does not prevent the other tenant from being
    processed. -/
theorem refreshExpiredTokens_isolates_failure (broker : Broker) (now : Int)
    (cF cS : Company) (trF trS : TokenRefresh) (l : List TokenRefresh)
    (resp : RefreshResp) (msg : String)
    (horder : l = [trF, trS] ∨ l = [trS, trF])
    (hcid : cF.id ≠ cS.id) (hccid : cF.companyID ≠ cS.companyID)
    (hrid : trF.id ≠ trS.id)
    (hFc : trF.companyID = cF.id) (hSc : trS.companyID = cS.id)
    (hFdue : trF.nextRefresh ≤ now) (hFact : trF.status = "active")
    (hSdue : trS.nextRefresh ≤ now) (hSact : trS.status = "active")
    (hbF : broker cF.companyID = .error msg)
    (hbS : broker cS.companyID = .ok resp) :
    ∃ db',
      (TokenService.RefreshExpiredTokens broker now ⟨[cF, cS], l⟩).1 = .ok db'
      ∧ findTokenRefreshByRecordID db' trS.id
          = some { trS with
                     lastRefresh := now
                     nextRefresh := resp.expiresAt - 24 * hourNs
                     refreshCount := trS.refreshCount + 1
                     status := "active"
                     errorMessage := ""
                     updatedAt := now }
      ∧ ∃ e, findTokenRefreshByRecordID db' trF.id
            = some { trF with status := "failed", errorMessage := e, updatedAt := now }
          ∧ e ≠ "" := by
  have hFdue' : decide (trF.nextRefresh ≤ now) = true := decide_eq_true hFdue
  have hSdue' : decide (trS.nextRefresh ≤ now) = true := decide_eq_true hSdue
  have hFact' : (trF.status == "active") = true := by simp [hFact]
  have hSact' : (trS.status == "active") = true := by simp [hSact]
  have hcid1 : (cF.id == cS.id) = false := by simp [hcid]
  have hcid2 : (cS.id == cF.id) = false := by simp [Ne.symm hcid]
  have hccid1 : (cF.companyID == cS.companyID) = false := by simp [hccid]
  have hccid2 : (cS.companyID == cF.companyID) = false := by simp [Ne.symm hccid]
  have hrid1 : (trF.id == trS.id) = false := by simp [hrid]
  have hrid2 : (trS.id == trF.id) = false := by simp [Ne.symm hrid]
  have hcidP : cS.id ≠ cF.id := Ne.symm hcid
  have hccidP : cS.companyID ≠ cF.companyID := Ne.symm hccid
  have hridP : trS.id ≠ trF.id := Ne.symm hrid
  rcases horder with h | h <;> subst h <;>
    refine ⟨_, rfl, ?_, "nango refresh failed: " ++ ("failed to refresh token: " ++ msg), ?_,
      nango_failure_message_ne_empty _⟩ <;>
    simp [TokenService.RefreshExpiredTokens, TokenService.refreshSingleToken,
      NangoService.RefreshToken, findCompanyByCompanyID, findCompanyByID,
      findTokenRefreshByCompanyID, findTokenRefreshByRecordID, saveCompany, saveTokenRefresh,
      hFdue', hSdue', hFact', hSact', hFc, hSc, hcid1, hcid2, hccid1, hccid2, hrid1, hrid2,
      hcid, hccid, hrid, hcidP, hccidP, hridP, hbF, hbS]

/-- Failing-tenant company for the C1 witness. -/
def w1CF : Company :=
  { id := 1, companyID := "cf", companyName := "CF", accessToken := "a",
    refreshToken := "r", tokenExpiry := 0, isActive := true, updatedAt := 0 }

/-- Succeeding-tenant company for the C1 witness. -/
def w1CS : Company :=
  { id := 2, companyID := "cs", companyName := "CS", accessToken := "a",
    refreshToken := "r", tokenExpiry := 0, isActive := true, updatedAt := 0 }

/-- Due refresh record of the failing tenant. -/
def w1TrF : TokenRefresh :=
  { id := 11, companyID := 1, lastRefresh := 0, nextRefresh := 0, refreshCount := 0,
    status := "active", errorMessage := "", updatedAt := 0 }

/-- Due refresh record of the succeeding tenant. -/
def w1TrS : TokenRefresh :=
  { id := 12, companyID := 2, lastRefresh := 0, nextRefresh := 0, refreshCount := 3,
    status := "active", errorMessage := "", updatedAt := 0 }

/-- Broker response for the succeeding tenant in the C1 witness. -/
def w1Resp : RefreshResp :=
  { accessToken := "na", refreshToken := "nr", expiresAt := 50 * hourNs }

/-- Broker for the C1 witness: fails for `cf`, succeeds for `cs`. -/
def w1Broker : Broker := fun cid => if cid == "cs" then .ok w1Resp else .error "boom"

/-- Witness for `refreshExpiredTokens_isolates_failure` on a concrete
    two-tenant batch. -/
theorem refreshExpiredTokens_isolates_failure_witness :
    ∃ db',
      (TokenService.RefreshExpiredTokens w1Broker 0 ⟨[w1CF, w1CS], [w1TrF, w1TrS]⟩).1 = .ok db'
      ∧ findTokenRefreshByRecordID db' w1TrS.id
          = some { w1TrS with
                     lastRefresh := 0
                     nextRefresh := w1Resp.expiresAt - 24 * hourNs
                     refreshCount := w1TrS.refreshCount + 1
                     status := "active"
                     errorMessage := ""
                     updatedAt := 0 }
      ∧ ∃ e, findTokenRefreshByRecordID db' w1TrF.id
            = some { w1TrF with status := "failed", errorMessage := e, updatedAt := 0 }
          ∧ e ≠ "" :=
  refreshExpiredTokens_isolates_failure w1Broker 0 w1CF w1CS w1TrF w1TrS [w1TrF, w1TrS]
    w1Resp "boom" (Or.inl rfl) (by decide) (by decide) (by decide) rfl rfl
    (by decide) rfl (by decide) rfl rfl rfl

/-- C5 counterexample: `CleanupExpiredTokens` does not implement the spec's
    parameterized `purgeOldRecords(retentionDays)` — its 30-day window is
    hardcoded: with a 60-day retention requested, a 40-day-old failed record
    should be kept, but the code deletes it. -/
theorem cleanup_retention_not_a_parameter :
    ¬ ∀ (retentionDays : Nat) (now : Int) (db : DB),
        (TokenService.CleanupExpiredTokens now db).1
          = (TokenService.purgeOldRecords retentionDays now db).1 := by
  intro h
  exact absurd
    (h 60 (40 * dayNs)
      { companies := [],
        tokenRefreshes := [{ id := 1, companyID := 1, lastRefresh := 0, nextRefresh := 0,
                             refreshCount := 0, status := "failed", errorMessage := "",
                             updatedAt := 0 }] })
    (by decide)

/-- C5 (amended): `CleanupExpiredTokens` keeps exactly the refresh records that
    are not both older than the fixed 30-day window and in a terminal
    (`failed`/`expired`) status; `active` records are untouched regardless of
    age, companies are untouched, and the removed-row count it logs is the
    number of deleted records.  The 30-day window is hardcoded, not a
    parameter. -/
theorem cleanupExpiredTokens_spec (now : Int) (db : DB) (tr : TokenRefresh) :
    (tr ∈ (TokenService.CleanupExpiredTokens now db).1.tokenRefreshes ↔
      (tr ∈ db.tokenRefreshes ∧
        ¬(tr.updatedAt < now - 30 * dayNs ∧ (tr.status = "failed" ∨ tr.status = "expired"))))
    ∧ (tr.status = "active" →
        (tr ∈ (TokenService.CleanupExpiredTokens now db).1.tokenRefreshes ↔
          tr ∈ db.tokenRefreshes))
    ∧ (TokenService.CleanupExpiredTokens now db).1.companies = db.companies
    ∧ (TokenService.CleanupExpiredTokens now db).2
        = (db.tokenRefreshes.filter (fun x =>
            decide (x.updatedAt < now - 30 * dayNs)
              && (x.status == "failed" || x.status == "expired"))).length := by
  have hdoomed : ∀ x : TokenRefresh,
      ((decide (x.updatedAt < now - 30 * dayNs)
          && (x.status == "failed" || x.status == "expired")) = true)
      ↔ (x.updatedAt < now - 30 * dayNs ∧ (x.status = "failed" ∨ x.status = "expired")) := by
    intro x
    simp only [Bool.and_eq_true, decide_eq_true_eq, Bool.or_eq_true, beq_iff_eq]
  have hmain : tr ∈ (TokenService.CleanupExpiredTokens now db).1.tokenRefreshes ↔
      (tr ∈ db.tokenRefreshes ∧
        ¬(tr.updatedAt < now - 30 * dayNs ∧ (tr.status = "failed" ∨ tr.status = "expired"))) := by
    unfold TokenService.CleanupExpiredTokens
    dsimp only
    rw [List.mem_filter]
    constructor
    · rintro ⟨h1, h2⟩
      refine ⟨h1, fun hcon => ?_⟩
      rw [Bool.not_eq_true'] at h2
      rw [← hdoomed tr] at hcon
      rw [hcon] at h2
      cases h2
    · rintro ⟨h1, h2⟩
      refine ⟨h1, ?_⟩
      rw [Bool.not_eq_true']
      cases hb : (decide (tr.updatedAt < now - 30 * dayNs)
          && (tr.status == "failed" || tr.status == "expired")) with
      | false => rfl
      | true => exact absurd ((hdoomed tr).mp hb) h2
  refine ⟨hmain, fun hact => ?_, rfl, rfl⟩
  constructor
  · exact fun h => (hmain.mp h).1
  · intro h
    refine hmain.mpr ⟨h, ?_⟩
    rintro ⟨-, hc | hc⟩ <;> rw [hact] at hc <;> exact absurd hc (by decide)

/-- Witness for `cleanupExpiredTokens_spec` at a concrete store and record. -/
theorem cleanupExpiredTokens_spec_witness :
    ((⟨1, 1, 0, 0, 0, "active", "", 0⟩ : TokenRefresh)
        ∈ (TokenService.CleanupExpiredTokens (40 * dayNs)
            ⟨[], [⟨1, 1, 0, 0, 0, "active", "", 0⟩]⟩).1.tokenRefreshes ↔
      ((⟨1, 1, 0, 0, 0, "active", "", 0⟩ : TokenRefresh)
          ∈ [(⟨1, 1, 0, 0, 0, "active", "", 0⟩ : TokenRefresh)] ∧
        ¬((0 : Int) < 40 * dayNs - 30 * dayNs
          ∧ (("active" : String) = "failed" ∨ ("active" : String) = "expired")))) := by
  have h := cleanupExpiredTokens_spec (40 * dayNs)
    ⟨[], [⟨1, 1, 0, 0, 0, "active", "", 0⟩]⟩ ⟨1, 1, 0, 0, 0, "active", "", 0⟩
  exact h.1

namespace SchedulerService

/-- One cron entry (`cron.Entry`): next scheduled run (`Next`) and previous
    run (`Prev`); Go's zero `time.Time` (job never ran) is encoded as 0. -/
structure CronEntry where
  next : Int
  prev : Int
  deriving Repr, DecidableEq

/-- Scheduler state: the `isRunning` flag and the registered cron entries. -/
structure State where
  isRunning : Bool
  entries : List CronEntry
  deriving Repr, DecidableEq

/-- `scheduler.go` `SchedulerStats`. -/
structure SchedulerStats where
  isRunning : Bool
  jobCount : Nat
  nextJobTime : Option Int
  lastJobTime : Option Int
  deriving Repr, DecidableEq

/-- `scheduler.go` `GetStats`: running flag, job count, the earliest `Next`
    over all entries, and — only when the first entry's `Prev` is nonzero —
    the latest `Prev` over all entries. -/
def GetStats (ss : State) : SchedulerStats :=
  match ss.entries with
  | [] => { isRunning := ss.isRunning, jobCount := 0, nextJobTime := none, lastJobTime := none }
  | e0 :: rest =>
    let nextTime := rest.foldl (fun acc e => if e.next < acc then e.next else acc) e0.next
    let lastJobTime :=
      if e0.prev ≠ 0 then
        some (rest.foldl (fun acc e => if acc < e.prev then e.prev else acc) e0.prev)
      else none
    { isRunning := ss.isRunning, jobCount := (e0 :: rest).length,
      nextJobTime := some nextTime, lastJobTime := lastJobTime }

/-- The running minimum over `next` fields is the seed or one of the fields. -/
theorem foldl_min_next_mem (l : List CronEntry) (a : Int) :
    l.foldl (fun acc e => if e.next < acc then e.next else acc) a = a
      ∨ l.foldl (fun acc e => if e.next < acc then e.next else acc) a ∈ l.map CronEntry.next := by
  induction l generalizing a with
  | nil => left; rfl
  | cons x xs ih =>
    simp only [List.foldl_cons, List.map_cons]
    rcases ih (if x.next < a then x.next else a) with h | h
    · rw [h]
      by_cases hx : x.next < a
      · right; rw [if_pos hx]; exact List.mem_cons_self _ _
      · left; rw [if_neg hx]
    · right; exact List.mem_cons_of_mem _ h

/-- The running minimum over `next` fields is a lower bound of the seed and
    all fields. -/
theorem foldl_min_next_le (l : List CronEntry) (a : Int) :
    l.foldl (fun acc e => if e.next < acc then e.next else acc) a ≤ a
      ∧ ∀ e ∈ l, l.foldl (fun acc e => if e.next < acc then e.next else acc) a ≤ e.next := by
  induction l generalizing a with
  | nil => exact ⟨le_refl a, fun e he => absurd he (List.not_mem_nil e)⟩
  | cons x xs ih =>
    simp only [List.foldl_cons]
    obtain ⟨ih1, ih2⟩ := ih (if x.next < a then x.next else a)
    have hseed_a : (if x.next < a then x.next else a) ≤ a := by
      by_cases hx : x.next < a
      · rw [if_pos hx]; exact le_of_lt hx
      · rw [if_neg hx]
    have hseed_x : (if x.next < a then x.next else a) ≤ x.next := by
      by_cases hx : x.next < a
      · rw [if_pos hx]
      · rw [if_neg hx]; exact le_of_not_lt hx
    refine ⟨le_trans ih1 hseed_a, fun e he => ?_⟩
    rcases List.mem_cons.mp he with rfl | hmem
    · exact le_trans ih1 hseed_x
    · exact ih2 e hmem

/-- The running maximum over `prev` fields is the seed or one of the fields. -/
theorem foldl_max_prev_mem (l : List CronEntry) (a : Int) :
    l.foldl (fun acc e => if acc < e.prev then e.prev else acc) a = a
      ∨ l.foldl (fun acc e => if acc < e.prev then e.prev else acc) a ∈ l.map CronEntry.prev := by
  induction l generalizing a with
  | nil => left; rfl
  | cons x xs ih =>
    simp only [List.foldl_cons, List.map_cons]
    rcases ih (if a < x.prev then x.prev else a) with h | h
    · rw [h]
      by_cases hx : a < x.prev
      · right; rw [if_pos hx]; exact List.mem_cons_self _ _
      · left; rw [if_neg hx]
    · right; exact List.mem_cons_of_mem _ h

/-- The running maximum over `prev` fields is an upper bound of the seed and
    all fields. -/
theorem foldl_max_prev_ge (l : List CronEntry) (a : Int) :
    a ≤ l.foldl (fun acc e => if acc < e.prev then e.prev else acc) a
      ∧ ∀ e ∈ l, e.prev ≤ l.foldl (fun acc e => if acc < e.prev then e.prev else acc) a := by
  induction l generalizing a with
  | nil => exact ⟨le_refl a, fun e he => absurd he (List.not_mem_nil e)⟩
  | cons x xs ih =>
    simp only [List.foldl_cons]
    obtain ⟨ih1, ih2⟩ := ih (if a < x.prev then x.prev else a)
    have hseed_a : a ≤ (if a < x.prev then x.prev else a) := by
      by_cases hx : a < x.prev
      · rw [if_pos hx]; exact le_of_lt hx
      · rw [if_neg hx]
    have hseed_x : x.prev ≤ (if a < x.prev then x.prev else a) := by
      by_cases hx : a < x.prev
      · rw [if_pos hx]
      · rw [if_neg hx]; exact le_of_not_lt hx
    refine ⟨le_trans hseed_a ih1, fun e he => ?_⟩
    rcases List.mem_cons.mp he with rfl | hmem
    · exact le_trans hseed_x ih1
    · exact ih2 e hmem

end SchedulerService

/-- C9 counterexample: with two registered jobs where only the second has a
    recorded previous run, `GetStats` reports no last-run time at all, so it is
    not the case that the latest previous run is reported whenever any job has
    a recorded previous run. -/
theorem getStats_misses_recorded_run :
    (SchedulerService.GetStats ⟨true, [⟨10, 0⟩, ⟨20, 5⟩]⟩).lastJobTime = none
    ∧ ∃ e ∈ ([⟨10, 0⟩, ⟨20, 5⟩] : List SchedulerService.CronEntry), e.prev ≠ 0 := by
  refine ⟨rfl, ⟨20, 5⟩, by simp, by decide⟩

/-- C9 (amended): for every nonempty job list, `GetStats` reports the running
    flag, the job count, and the earliest next-run over all jobs; the latest
    previous-run over all jobs is reported whenever the FIRST registered entry
    has a recorded (nonzero) previous run — if the first entry never ran, no
    last-run time is reported even when later entries have run. -/
theorem getStats_spec (r : Bool) (e0 : SchedulerService.CronEntry)
    (rest : List SchedulerService.CronEntry) :
    (SchedulerService.GetStats ⟨r, e0 :: rest⟩).isRunning = r
    ∧ (SchedulerService.GetStats ⟨r, e0 :: rest⟩).jobCount = (e0 :: rest).length
    ∧ (∃ m, (SchedulerService.GetStats ⟨r, e0 :: rest⟩).nextJobTime = some m
        ∧ m ∈ (e0 :: rest).map SchedulerService.CronEntry.next
        ∧ ∀ e ∈ e0 :: rest, m ≤ e.next)
    ∧ (e0.prev ≠ 0 →
        ∃ M, (SchedulerService.GetStats ⟨r, e0 :: rest⟩).lastJobTime = some M
          ∧ M ∈ (e0 :: rest).map SchedulerService.CronEntry.prev
          ∧ ∀ e ∈ e0 :: rest, e.prev ≤ M) := by
  refine ⟨rfl, rfl, ?_, fun h0 => ?_⟩
  · refine ⟨_, rfl, ?_, ?_⟩
    · rcases SchedulerService.foldl_min_next_mem rest e0.next with h | h
      · rw [h]; simp
      · simp only [List.map_cons]; exact List.mem_cons_of_mem _ h
    · intro e he
      obtain ⟨h1, h2⟩ := SchedulerService.foldl_min_next_le rest e0.next
      rcases List.mem_cons.mp he with rfl | hmem
      · exact h1
      · exact h2 e hmem
  · refine ⟨rest.foldl (fun acc e => if acc < e.prev then e.prev else acc) e0.prev, ?_, ?_, ?_⟩
    · unfold SchedulerService.GetStats
      dsimp only
      rw [if_pos h0]
    · rcases SchedulerService.foldl_max_prev_mem rest e0.prev with h | h
      · rw [h]; simp
      · simp only [List.map_cons]; exact List.mem_cons_of_mem _ h
    · intro e he
      obtain ⟨h1, h2⟩ := SchedulerService.foldl_max_prev_ge rest e0.prev
      rcases List.mem_cons.mp he with rfl | hmem
      · exact h1
      · exact h2 e hmem

/-- Witness for `getStats_spec` on a concrete two-entry scheduler. -/
theorem getStats_spec_witness :
    (SchedulerService.GetStats ⟨true, [⟨10, 7⟩, ⟨20, 5⟩]⟩).isRunning = true
    ∧ (SchedulerService.GetStats ⟨true, [⟨10, 7⟩, ⟨20, 5⟩]⟩).jobCount
        = ([⟨10, 7⟩, ⟨20, 5⟩] : List SchedulerService.CronEntry).length
    ∧ (∃ m, (SchedulerService.GetStats ⟨true, [⟨10, 7⟩, ⟨20, 5⟩]⟩).nextJobTime = some m
        ∧ m ∈ ([⟨10, 7⟩, ⟨20, 5⟩] : List SchedulerService.CronEntry).map
            SchedulerService.CronEntry.next
        ∧ ∀ e ∈ ([⟨10, 7⟩, ⟨20, 5⟩] : List SchedulerService.CronEntry), m ≤ e.next)
    ∧ (∃ M, (SchedulerService.GetStats ⟨true, [⟨10, 7⟩, ⟨20, 5⟩]⟩).lastJobTime = some M
        ∧ M ∈ ([⟨10, 7⟩, ⟨20, 5⟩] : List SchedulerService.CronEntry).map
            SchedulerService.CronEntry.prev
        ∧ ∀ e ∈ ([⟨10, 7⟩, ⟨20, 5⟩] : List SchedulerService.CronEntry), e.prev ≤ M) :=
  ⟨(getStats_spec true ⟨10, 7⟩ [⟨20, 5⟩]).1,
   (getStats_spec true ⟨10, 7⟩ [⟨20, 5⟩]).2.1,
   (getStats_spec true ⟨10, 7⟩ [⟨20, 5⟩]).2.2.1,
   (getStats_spec true ⟨10, 7⟩ [⟨20, 5⟩]).2.2.2 (by decide)⟩

namespace CacheService

/-- Universe of Go `interface\x7b\x7d` values passed to the cache.  It covers the
    JSON-serializable scalars the service stores (including the distinction
    between Go `int`, `int64` and `float64`, which `Increment` relies on) plus
    one non-serializable value (`vchan`, e.g. a channel) on which
    `json.Marshal` fails. -/
inductive GoVal where
  | vnull
  | vbool (b : Bool)
  | vint (n : Int)
  | vint64 (n : Int)
  | vfloat (n : Int)
  | vstr (s : String)
  | vchan
  deriving Repr, DecidableEq

/-- JSON payloads as stored in Redis (always valid JSON: every remote write in
    the service goes through `json.Marshal` or `INCRBY`).  `jnum` carries the
    integral values that occur in this service. -/
inductive JVal where
  | jnull
  | jbool (b : Bool)
  | jnum (n : Int)
  | jstr (s : String)
  deriving Repr, DecidableEq

/-- `json.Marshal`: fails (returns `none`) on non-serializable values. -/
def jsonMarshal : GoVal → Option JVal
  | .vnull => some .jnull
  | .vbool b => some (.jbool b)
  | .vint n => some (.jnum n)
  | .vint64 n => some (.jnum n)
  | .vfloat n => some (.jnum n)
  | .vstr s => some (.jstr s)
  | .vchan => none

/-- `json.Unmarshal` into a generic `interface\x7b\x7d`: JSON numbers come back as
    Go `float64`. -/
def jsonUnmarshal : JVal → GoVal
  | .jnull => .vnull
  | .jbool b => .vbool b
  | .jnum n => .vfloat n
  | .jstr s => .vstr s

/-- Two cached values are equivalent when they are identical or serialize to
    the same JSON payload (a marshal/unmarshal round trip can turn an `int`
    into a `float64` but preserves the JSON denotation). -/
def equivVal (v w : GoVal) : Prop := v = w ∨ jsonMarshal v = jsonMarshal w

theorem jsonMarshal_jsonUnmarshal (j : JVal) : jsonMarshal (jsonUnmarshal j) = some j := by
  cases j <;> rfl

/-- An entry of the remote (Redis) tier: key, JSON payload, and absolute
    expiry instant (`none` = no TTL). -/
structure RemoteEntry where
  key : String
  val : JVal
  deadline : Option Int
  deriving Repr, DecidableEq

/-- An entry of the local in-process tier (`go-cache`): key, raw value, and
    absolute expiry instant (`none` = no expiration). -/
structure LocalEntry where
  key : String
  val : GoVal
  deadline : Option Int
  deriving Repr, DecidableEq

/-- The remote tier: `absent` models `redisClient == nil` (ping failed at
    startup), `failing` a client whose every command errors (outage after
    startup), `up` a healthy store. -/
inductive Redis where
  | absent
  | failing (store : List RemoteEntry)
  | up (store : List RemoteEntry)
  deriving Repr, DecidableEq

/-- `CacheService` state: the remote tier, the local `go-cache` map, and the
    local cache's configured default expiration. -/
structure State where
  redis : Redis
  memoryCache : List LocalEntry
  defaultExpiration : Int
  deriving Repr, DecidableEq

/-- Liveness of an entry with the given absolute deadline at time `now`. -/
def live (now : Int) : Option Int → Bool
  | none => true
  | some d => now < d

/-- Deadline Redis attaches for a `SET` with the given TTL (0 or negative:
    no expiry). -/
def remoteDeadline (now ttl : Int) : Option Int :=
  if 0 < ttl then some (now + ttl) else none

/-- Deadline `go-cache` attaches: duration 0 (`DefaultExpiration`) uses the
    cache's configured default, negative means no expiration. -/
def localDeadline (defaultExpiration now ttl : Int) : Option Int :=
  if ttl = 0 then
    (if 0 < defaultExpiration then some (now + defaultExpiration) else none)
  else if 0 < ttl then some (now + ttl) else none

/-- Redis `GET`: the stored payload if present and unexpired. -/
def remoteGet (now : Int) (store : List RemoteEntry) (key : String) : Option JVal :=
  match store.find? (fun e => e.key == key) with
  | some e => if live now e.deadline then some e.val else none
  | none => none

/-- Redis `SET`: replace the key's entry and set its TTL. -/
def remotePut (now : Int) (store : List RemoteEntry) (key : String) (j : JVal)
    (ttl : Int) : List RemoteEntry :=
  { key := key, val := j, deadline := remoteDeadline now ttl }
    :: store.filter (fun e => e.key != key)

/-- `go-cache` `Get`: the stored value if present and unexpired. -/
def localGet (now : Int) (l : List LocalEntry) (key : String) : Option GoVal :=
  match l.find? (fun e => e.key == key) with
  | some e => if live now e.deadline then some e.val else none
  | none => none

/-- `go-cache` `Set`: replace the key's entry; duration 0 picks the default
    expiration. -/
def localPut (defaultExpiration now : Int) (l : List LocalEntry) (key : String)
    (v : GoVal) (ttl : Int) : List LocalEntry :=
  { key := key, val := v, deadline := localDeadline defaultExpiration now ttl }
    :: l.filter (fun e => e.key != key)

/-- `cache.go` `Set`: marshal and store remotely when the client exists and
    both the marshal and the remote command succeed; in every other case fall
    back to the local tier with the same ttl.  Always returns success. -/
def Set (now : Int) (cs : State) (key : String) (value : GoVal) (expiration : Int) :
    State × Except String Unit :=
  match cs.redis, jsonMarshal value with
  | .up store, some jsonData =>
    ({ cs with redis := .up (remotePut now store key jsonData expiration) }, .ok ())
  | _, _ =>
    ({ cs with memoryCache :=
        localPut cs.defaultExpiration now cs.memoryCache key value expiration }, .ok ())

/-- `cache.go` `Get`: try Redis first and unmarshal the payload (every payload
    this service stores is valid JSON, so the raw-string branch of the Go code
    is unreachable); on miss, error or absent client fall back to the local
    tier.  Returns `none` for a total miss (Go returns a nil interface). -/
def Get (now : Int) (cs : State) (key : String) : Option GoVal :=
  let fromLocal := localGet now cs.memoryCache key
  match cs.redis with
  | .up store =>
    match remoteGet now store key with
    | some val => some (jsonUnmarshal val)
    | none => fromLocal
  | _ => fromLocal

/-- Redis `KEYS`-style glob matching (supports `*` and `?`). -/
def globMatch : List Char → List Char → Bool
  | [], [] => true
  | '*' :: ps, [] => globMatch ps []
  | '*' :: ps, c :: ss => globMatch ps (c :: ss) || globMatch ('*' :: ps) ss
  | '?' :: ps, _ :: ss => globMatch ps ss
  | p :: ps, c :: ss => p == c && globMatch ps ss
  | _ :: _, [] => false
  | [], _ :: _ => false
  termination_by ps ss => (ps.length, ss.length)

/-- `cache.go` `DeletePattern`: Redis-only; errors with "Redis not available
    for pattern deletion" when the client is nil, propagates the command error
    when the client is failing, otherwise deletes all matching keys. -/
def DeletePattern (cs : State) (pattern : String) : State × Except String Unit :=
  match cs.redis with
  | .absent => (cs, .error "Redis not available for pattern deletion")
  | .failing _ => (cs, .error "redis: connection error")
  | .up store =>
    ({ cs with redis := .up (store.filter (fun e => ! globMatch pattern.data e.key.data)) },
     .ok ())

/-- `cache.go` `Increment`: Redis `INCRBY` when it succeeds (integer payloads
    only; the key is created without TTL when absent, and keeps its TTL when
    present); on any Redis failure fall back to the local tier, where the
    stored value accumulates only if it is an `int64` — otherwise the key is
    (re)seeded with `delta`. -/
def Increment (now : Int) (cs : State) (key : String) (delta : Int) :
    State × Except String Int :=
  let localPath : State × Except String Int :=
    match localGet now cs.memoryCache key with
    | some (.vint64 n) =>
      ({ cs with memoryCache :=
          localPut cs.defaultExpiration now cs.memoryCache key (.vint64 (n + delta)) 0 },
       .ok (n + delta))
    | _ =>
      ({ cs with memoryCache :=
          localPut cs.defaultExpiration now cs.memoryCache key (.vint64 delta) 0 },
       .ok delta)
  match cs.redis with
  | .up store =>
    match remoteGet now store key with
    | some (.jnum n) =>
      ({ cs with redis := .up (store.map (fun e =>
          if e.key == key then { e with val := .jnum (n + delta) } else e)) },
       .ok (n + delta))
    | some _ => localPath
    | none =>
      ({ cs with redis := .up ({ key := key, val := .jnum delta, deadline := none }
          :: store.filter (fun e => e.key != key)) },
       .ok delta)
  | _ => localPath

end CacheService

namespace CacheService

/-- A value just written to the local tier with a still-unexpired ttl is read
    back unchanged. -/
theorem localGet_localPut (defaultExpiration now now2 ttl : Int) (mem : List LocalEntry)
    (key : String) (v : GoVal) (h1 : now ≤ now2) (h2 : now2 < now + ttl) :
    localGet now2 (localPut defaultExpiration now mem key v ttl) key = some v := by
  have httl : 0 < ttl := by omega
  unfold localGet localPut localDeadline
  rw [if_neg (by omega), if_pos httl, List.find?_cons_of_pos _ (by simp)]
  dsimp only
  simp [live, h2]

/-- Filtering a key out of the local tier removes every entry `localGet` could
    return for it. -/
theorem localGet_filter_out (now : Int) (l : List LocalEntry) (key : String) :
    localGet now (l.filter (fun e => e.key != key)) key = none := by
  unfold localGet
  induction l with
  | nil => rfl
  | cons x xs ih =>
    by_cases hx : x.key = key
    · rw [List.filter_cons_of_neg (by simp [hx])]
      exact ih
    · rw [List.filter_cons_of_pos (by simp [hx]),
        List.find?_cons_of_neg _ (by simp [hx])]
      exact ih

/-- Filtering a key out of the local tier twice is the same as once. -/
theorem filter_key_idem (l : List LocalEntry) (key : String) :
    (l.filter (fun e => e.key != key)).filter (fun e => e.key != key)
      = l.filter (fun e => e.key != key) := by
  induction l with
  | nil => rfl
  | cons x xs ih =>
    by_cases hx : x.key = key
    · rw [List.filter_cons_of_neg (by simp [hx])]
      exact ih
    · rw [List.filter_cons_of_pos (by simp [hx]),
        List.filter_cons_of_pos (by simp [hx]), ih]

end CacheService

/-- C6: a cache `set` immediately followed (within the ttl) by a `get` on the
    same key returns an equivalent value: served by the remote tier it returns
    the JSON round trip of the value (equivalent, identical up to Go's number
    decoding), served by the local tier it returns the value itself. -/
theorem set_get_roundtrip (cs : CacheService.State) (key : String) (v : CacheService.GoVal)
    (ttl now now2 : Int) (h1 : now ≤ now2) (h2 : now2 < now + ttl) :
    (∀ store j, cs.redis = .up store → CacheService.jsonMarshal v = some j →
        CacheService.Get now2 (CacheService.Set now cs key v ttl).1 key
            = some (CacheService.jsonUnmarshal j)
          ∧ CacheService.equivVal v (CacheService.jsonUnmarshal j))
    ∧ (cs.redis = .absent →
        CacheService.Get now2 (CacheService.Set now cs key v ttl).1 key = some v) := by
  have httl : 0 < ttl := by omega
  obtain ⟨red, mem, dex⟩ := cs
  constructor
  · intro store j hredis hmarshal
    dsimp only at hredis
    subst hredis
    constructor
    · unfold CacheService.Set
      rw [hmarshal]
      dsimp only
      unfold CacheService.Get
      dsimp only
      unfold CacheService.remoteGet CacheService.remotePut CacheService.remoteDeadline
      rw [if_pos httl, List.find?_cons_of_pos _ (by simp)]
      dsimp only
      simp [CacheService.live, h2]
    · exact Or.inr (hmarshal.trans (CacheService.jsonMarshal_jsonUnmarshal j).symm)
  · intro hredis
    dsimp only at hredis
    subst hredis
    unfold CacheService.Set
    cases CacheService.jsonMarshal v with
    | none =>
      dsimp only
      unfold CacheService.Get
      dsimp only
      exact CacheService.localGet_localPut dex now now2 ttl mem key v h1 h2
    | some j =>
      dsimp only
      unfold CacheService.Get
      dsimp only
      exact CacheService.localGet_localPut dex now now2 ttl mem key v h1 h2

/-- Witness for `set_get_roundtrip`: the remote round trip turns `vint 5` into
    the equivalent `vfloat 5`. -/
theorem set_get_roundtrip_witness :
    CacheService.Get 1 (CacheService.Set 0 ⟨.up [], [], 0⟩ "k" (.vint 5) 10).1 "k"
        = some (CacheService.jsonUnmarshal (.jnum 5))
      ∧ CacheService.equivVal (.vint 5) (CacheService.jsonUnmarshal (.jnum 5)) :=
  (set_get_roundtrip ⟨.up [], [], 0⟩ "k" (.vint 5) 10 0 1 (by decide) (by decide)).1
    [] (.jnum 5) rfl rfl

/-- C7: with the remote tier unavailable (nil client), `set` followed by `get`
    still succeeds via the local tier, while `DeletePattern` fails with the
    explicit "Redis not available" condition and changes nothing. -/
theorem remote_unavailable_fallback (cs : CacheService.State) (key pattern : String)
    (v : CacheService.GoVal) (ttl now now2 : Int)
    (habs : cs.redis = .absent) (h1 : now ≤ now2) (h2 : now2 < now + ttl) :
    CacheService.Get now2 (CacheService.Set now cs key v ttl).1 key = some v
    ∧ (CacheService.DeletePattern cs pattern).2
        = .error "Redis not available for pattern deletion"
    ∧ (CacheService.DeletePattern cs pattern).1 = cs := by
  obtain ⟨red, mem, dex⟩ := cs
  dsimp only at habs
  subst habs
  refine ⟨?_, rfl, rfl⟩
  unfold CacheService.Set
  cases CacheService.jsonMarshal v with
  | none =>
    dsimp only
    unfold CacheService.Get
    dsimp only
    exact CacheService.localGet_localPut dex now now2 ttl mem key v h1 h2
  | some j =>
    dsimp only
    unfold CacheService.Get
    dsimp only
    exact CacheService.localGet_localPut dex now now2 ttl mem key v h1 h2

/-- Witness for `remote_unavailable_fallback` on a concrete state. -/
theorem remote_unavailable_fallback_witness :
    CacheService.Get 1 (CacheService.Set 0 ⟨.absent, [], 0⟩ "k" (.vstr "x") 10).1 "k"
        = some (.vstr "x")
    ∧ (CacheService.DeletePattern ⟨.absent, [], 0⟩ "loc*").2
        = .error "Redis not available for pattern deletion"
    ∧ (CacheService.DeletePattern ⟨.absent, [], 0⟩ "loc*").1 = ⟨.absent, [], 0⟩ :=
  remote_unavailable_fallback ⟨.absent, [], 0⟩ "k" "loc*" (.vstr "x") 10 0 1 rfl
    (by decide) (by decide)

/-- C8: `Set` never returns an error, and whenever the remote path is not
    taken (nil client, failing client, or serialization failure) the value is
    written to the local tier with a deadline computed from the same ttl. -/
theorem set_never_fails (cs : CacheService.State) (key : String) (v : CacheService.GoVal)
    (ttl now : Int) :
    (CacheService.Set now cs key v ttl).2 = .ok ()
    ∧ ((∀ store, cs.redis = .up store → CacheService.jsonMarshal v = none) →
        (CacheService.Set now cs key v ttl).1.memoryCache.find? (fun e => e.key == key)
          = some { key := key, val := v,
                   deadline := CacheService.localDeadline cs.defaultExpiration now ttl }) := by
  obtain ⟨red, mem, dex⟩ := cs
  cases red with
  | absent =>
    refine ⟨?_, fun _ => ?_⟩
    · unfold CacheService.Set
      cases CacheService.jsonMarshal v with
      | none => rfl
      | some j => rfl
    · unfold CacheService.Set
      cases CacheService.jsonMarshal v with
      | none =>
        dsimp only
        unfold CacheService.localPut
        rw [List.find?_cons_of_pos _ (by simp)]
      | some j =>
        dsimp only
        unfold CacheService.localPut
        rw [List.find?_cons_of_pos _ (by simp)]
  | failing st =>
    refine ⟨?_, fun _ => ?_⟩
    · unfold CacheService.Set
      cases CacheService.jsonMarshal v with
      | none => rfl
      | some j => rfl
    · unfold CacheService.Set
      cases CacheService.jsonMarshal v with
      | none =>
        dsimp only
        unfold CacheService.localPut
        rw [List.find?_cons_of_pos _ (by simp)]
      | some j =>
        dsimp only
        unfold CacheService.localPut
        rw [List.find?_cons_of_pos _ (by simp)]
  | up st =>
    cases hm : CacheService.jsonMarshal v with
    | some j =>
      refine ⟨?_, fun h => absurd (h st rfl) (by simp [hm])⟩
      unfold CacheService.Set
      rw [hm]
    | none =>
      refine ⟨?_, fun _ => ?_⟩
      · unfold CacheService.Set
        rw [hm]
      · unfold CacheService.Set
        rw [hm]
        dsimp only
        unfold CacheService.localPut
        rw [List.find?_cons_of_pos _ (by simp)]

/-- Witness for `set_never_fails`: a non-serializable value with a healthy
    remote still succeeds and lands in the local tier with the same ttl. -/
theorem set_never_fails_witness :
    (CacheService.Set 0 ⟨.up [], [], 0⟩ "k" .vchan 10).2 = .ok ()
    ∧ (CacheService.Set 0 ⟨.up [], [], 0⟩ "k" .vchan 10).1.memoryCache.find?
          (fun e => e.key == "k")
        = some { key := "k", val := .vchan,
                 deadline := CacheService.localDeadline 0 0 10 } :=
  ⟨(set_never_fails ⟨.up [], [], 0⟩ "k" .vchan 10 0).1,
   (set_never_fails ⟨.up [], [], 0⟩ "k" .vchan 10 0).2 (fun _ h => by cases h; rfl)⟩

/-- C10 (implicit): with no usable remote tier, `Increment` on a key whose
    stored local value is not an `int64` does not accumulate: it returns
    `delta`, overwrites the entry with `int64 delta` under the default
    expiration, and leaves the local tier exactly as if the key had been
    absent. -/
theorem increment_overwrites_non_int64 (cs : CacheService.State) (key : String)
    (delta : Int) (v : CacheService.GoVal) (now : Int)
    (hredis : cs.redis = .absent ∨ ∃ st, cs.redis = .failing st)
    (hfound : CacheService.localGet now cs.memoryCache key = some v)
    (hnot : ∀ n, v ≠ .vint64 n) :
    (CacheService.Increment now cs key delta).2 = .ok delta
    ∧ (CacheService.Increment now cs key delta).1.memoryCache.find? (fun e => e.key == key)
        = some { key := key, val := .vint64 delta,
                 deadline := CacheService.localDeadline cs.defaultExpiration now 0 }
    ∧ (CacheService.Increment now cs key delta).1.memoryCache
        = (CacheService.Increment now { cs with
            memoryCache := cs.memoryCache.filter (fun e => e.key != key) }
            key delta).1.memoryCache := by
  obtain ⟨red, mem, dex⟩ := cs
  dsimp only at hfound hredis ⊢
  have hgone : CacheService.localGet now (mem.filter (fun e => e.key != key)) key
      = none := CacheService.localGet_filter_out now mem key
  rcases hredis with rfl | ⟨st, rfl⟩
  · unfold CacheService.Increment
    rw [hfound, hgone]
    dsimp only
    cases v
    case vint64 n => exact absurd rfl (hnot n)
    all_goals
      refine ⟨rfl, ?_, ?_⟩
      · unfold CacheService.localPut
        rw [List.find?_cons_of_pos _ (by simp)]
      · unfold CacheService.localPut
        rw [CacheService.filter_key_idem]
  · unfold CacheService.Increment
    rw [hfound, hgone]
    dsimp only
    cases v
    case vint64 n => exact absurd rfl (hnot n)
    all_goals
      refine ⟨rfl, ?_, ?_⟩
      · unfold CacheService.localPut
        rw [List.find?_cons_of_pos _ (by simp)]
      · unfold CacheService.localPut
        rw [CacheService.filter_key_idem]

/-- Witness for `increment_overwrites_non_int64`: a string value previously
    cached under the key is overwritten by the delta. -/
theorem increment_overwrites_non_int64_witness :
    (CacheService.Increment 0 ⟨.absent, [⟨"k", .vstr "5", none⟩], 0⟩ "k" 3).2 = .ok 3
    ∧ (CacheService.Increment 0 ⟨.absent, [⟨"k", .vstr "5", none⟩], 0⟩ "k" 3).1.memoryCache.find?
          (fun e => e.key == "k")
        = some { key := "k", val := .vint64 3, deadline := CacheService.localDeadline 0 0 0 }
    ∧ (CacheService.Increment 0 ⟨.absent, [⟨"k", .vstr "5", none⟩], 0⟩ "k" 3).1.memoryCache
        = (CacheService.Increment 0 ⟨.absent,
            ([⟨"k", .vstr "5", none⟩] : List CacheService.LocalEntry).filter
              (fun e => e.key != "k"), 0⟩ "k" 3).1.memoryCache :=
  increment_overwrites_non_int64 ⟨.absent, [⟨"k", .vstr "5", none⟩], 0⟩ "k" 3 (.vstr "5") 0
    (Or.inl rfl) rfl (fun _ h => CacheService.GoVal.noConfusion h)

end DirectoryEngine
